import Mathlib

/-!
Verification of the qbit-quick torrent racing tool.

This file gives a shallow embedding, in Lean 4, of the core logic of the
repository:

* `database_handler.py` — the persistent pause ledger backed by sqlite
  (tables `racing_torrents` / `paused_torrents` with cascade delete);
* `handlers.py` — the `race`, `post_race`, `pause`, `unpause` operations and
  the reannounce retry loop `_reannounce_until_working` with its helpers;
* `task_manager.py` — the background task registry.

Modelling conventions:

* The sqlite state is a `DB` value: the list of event rows and the list of
  `(event_id, item_id)` reference rows.  SQL queries are translated
  statement by statement into list operations.
* The remote qBittorrent client is an environment: the torrent list returned
  by each fetch and the tracker list returned by each tracker fetch are the
  fields of per-iteration snapshots.  Within one loop iteration the client is
  assumed to answer repeated queries consistently (a deterministic client).
* Remote calls are recorded in an explicit trace (`Call`), distinguishing
  read-only queries from mutations, so ordering properties ("no pause before
  the ledger save succeeded") become statements about traces.
* Python floats (`ratio`, `progress`, sleep durations) are modelled as `Rat`,
  wall-clock seconds as `Int`.
* `threading.Event` cancellation is modelled by a boolean `stop` flag carried
  by each snapshot: the flag is the value the event would report when that
  iteration reaches its check point.
-/

namespace QbitQuick

/-! ## String helpers: Python `needle in haystack` and `str.lower` -/

/-- Python list/string prefix test on character lists. -/
def startsWithL : List Char → List Char → Bool
  | [], _ => true
  | _ :: _, [] => false
  | n :: ns, h :: hs => n == h && startsWithL ns hs

/-- Python `needle in haystack` on character lists: some suffix of the
haystack starts with the needle. -/
def hasInfixL (needle : List Char) : List Char → Bool
  | [] => startsWithL needle []
  | h :: hs => startsWithL needle (h :: hs) || hasInfixL needle hs

/-- Python `needle in haystack.lower()` for strings: lowercase the haystack
character by character, then look for the needle as a contiguous substring. -/
def lowerContains (haystack needle : String) : Bool :=
  hasInfixL needle.toList (haystack.toList.map Char.toLower)

/-! ## Constants from `config.py` -/

/-- Tracker messages treated as "unregistered" (`UNREGISTERED_MESSAGES`). -/
def UNREGISTERED_MESSAGES : List String := ["unregistered", "stream truncated"]

/-- Fixed cooldown, in seconds, after a "too many requests" tracker message
(`TOO_MANY_REQUESTS_DELAY`). -/
def TOO_MANY_REQUESTS_DELAY : Rat := 10

/-! ## Pause ledger (`database_handler.py`)

The sqlite database holds the table `racing_torrents` (one row per pause
event, primary key `racing_torrent_hash`) and the table `paused_torrents`
(rows `(racing_torrent_hash, paused_torrent_hash)`, foreign key to
`racing_torrents` with cascade delete). -/

/-- Ledger state: event rows and `(event_id, item_id)` reference rows. -/
structure DB where
  events : List String
  refs : List (String × String)
  deriving DecidableEq, Repr

/-- The empty database (freshly created tables). -/
def DB.empty : DB := ⟨[], []⟩

/-- Total number of reference rows for item `x`, over all events: the SQL
`COUNT(*)` of the group of `x` in `load_torrents_to_unpause`. -/
def refCount (db : DB) (x : String) : Nat :=
  db.refs.countP (fun r => r.2 == x)

/-- Number of reference rows for item `x` under event `e`: the SQL
`SUM(racing_torrent_hash = ?)` of the group of `x`. -/
def refCountUnder (db : DB) (e x : String) : Nat :=
  db.refs.countP (fun r => r.1 == e && r.2 == x)

/-- Embedding of `save_torrent_hashes_to_pause(racing_torrent_hash,
torrent_hashes_to_pause)`: one transaction doing `INSERT OR REPLACE` of the
event row — whose implicit delete cascades to the event's old reference
rows — followed by inserting one reference row per item. -/
def save_torrent_hashes_to_pause (e : String) (items : List String) (db : DB) : DB :=
  { events := db.events.filter (fun ev => ev != e) ++ [e]
  , refs := db.refs.filter (fun r => r.1 != e) ++ items.map (fun i => (e, i)) }

/-- Embedding of the same function when the transaction raises
`sqlite3.DatabaseError`: `conn.rollback()` restores the state from before
`BEGIN TRANSACTION`, so on `dbOk = false` the database is unchanged and the
flag reports the failure (the Python function re-raises). -/
def save_torrent_hashes_run (e : String) (items : List String) (db : DB) (dbOk : Bool) :
    DB × Bool :=
  if dbOk then (save_torrent_hashes_to_pause e items db, true) else (db, false)

/-- Embedding of `load_all_paused_torrent_hashes()`: `SELECT DISTINCT
paused_torrent_hash FROM paused_torrents`. -/
def load_all_paused_torrent_hashes (db : DB) : List String :=
  (db.refs.map (fun r => r.2)).dedup

/-- Embedding of `load_torrents_to_unpause(torrent_hash)`: `GROUP BY
paused_torrent_hash HAVING COUNT(*) = SUM(racing_torrent_hash = ?)` — the
distinct item ids whose total reference count equals their count under `e`. -/
def load_torrents_to_unpause (db : DB) (e : String) : List String :=
  (db.refs.map (fun r => r.2)).dedup.filter
    (fun x => refCount db x == refCountUnder db e x)

/-- Embedding of `delete_torrent(torrent_hash)` (imported by the current
`handlers.py` under the name `delete_pause_event`, same contract): delete the
event row, cascading to its reference rows; `cur.rowcount` counts the event
rows deleted. -/
def delete_pause_event (e : String) (db : DB) : DB × Nat :=
  ({ events := db.events.filter (fun ev => ev != e)
   , refs := db.refs.filter (fun r => r.1 != e) },
   db.events.countP (fun ev => ev == e))

/-- Comparator used to model SQL `ORDER BY` on text columns. -/
def strLe (a b : String) : Bool := decide (a ≤ b)

/-- Embedding of `get_table_data()`: the `LEFT JOIN` ordered by
`(racing_torrent_hash, paused_torrent_hash)`, grouped into a mapping from
each event to its (sorted) item list; events with no reference rows map to
the empty list. -/
def get_table_data (db : DB) : List (String × List String) :=
  (db.events.mergeSort strLe).map
    (fun e => (e, ((db.refs.filter (fun r => r.1 == e)).map (fun r => r.2)).mergeSort strLe))

/-! ### Counting lemmas for the ledger -/

/-- Strict monotonicity of `countP`: a pointwise implication plus one element
on which it is strict. -/
theorem countP_lt_of_witness {α : Type} {p q : α → Bool} (l : List α)
    (himp : ∀ a ∈ l, q a = true → p a = true)
    (r : α) (hr : r ∈ l) (hp : p r = true) (hq : q r = false) :
    l.countP q < l.countP p := by
  induction l with
  | nil => simp at hr
  | cons a t ih =>
    rw [List.countP_cons, List.countP_cons]
    have hle : t.countP q ≤ t.countP p :=
      List.countP_mono_left (fun b hb h => himp b (List.mem_cons_of_mem _ hb) h)
    rcases List.mem_cons.mp hr with rfl | hrt
    · rw [if_pos hp, if_neg (by simp [hq])]
      omega
    · have hlt := ih (fun b hb h => himp b (List.mem_cons_of_mem _ hb) h) hrt
      have hqa : (if q a = true then 1 else 0) ≤ (if p a = true then 1 else 0) := by
        by_cases h : q a = true
        · rw [if_pos h, if_pos (himp a (List.mem_cons_self a t) h)]
        · rw [if_neg h]
          exact Nat.zero_le _
      omega

theorem refCount_pos_iff (db : DB) (x : String) :
    0 < refCount db x ↔ ∃ r ∈ db.refs, r.2 = x := by
  unfold refCount
  rw [List.countP_pos_iff]
  constructor
  · rintro ⟨r, hr, hp⟩
    exact ⟨r, hr, by simpa using hp⟩
  · rintro ⟨r, hr, hp⟩
    exact ⟨r, hr, by simpa using hp⟩

theorem refCountUnder_le_refCount (db : DB) (e x : String) :
    refCountUnder db e x ≤ refCount db x := by
  unfold refCount refCountUnder
  apply List.countP_mono_left
  intro r _ h
  simp only [Bool.and_eq_true, beq_iff_eq] at h ⊢
  exact h.2

/-- Membership in `load_torrents_to_unpause` unfolded to counts. -/
theorem mem_load_torrents_to_unpause (db : DB) (e x : String) :
    x ∈ load_torrents_to_unpause db e ↔
      0 < refCount db x ∧ refCount db x = refCountUnder db e x := by
  unfold load_torrents_to_unpause
  rw [List.mem_filter, List.mem_dedup]
  constructor
  · rintro ⟨hmem, heq⟩
    rcases List.mem_map.mp hmem with ⟨r, hr, hrx⟩
    refine ⟨(refCount_pos_iff db x).mpr ⟨r, hr, hrx⟩, by simpa using heq⟩
  · rintro ⟨hpos, heq⟩
    rcases (refCount_pos_iff db x).mp hpos with ⟨r, hr, hrx⟩
    exact ⟨List.mem_map.mpr ⟨r, hr, hrx⟩, by simpa using heq⟩

/-- When the total count equals the count under `e`, every reference row for
`x` belongs to `e`. -/
theorem refs_all_under_of_count_eq (db : DB) (e x : String)
    (h : refCount db x = refCountUnder db e x) :
    ∀ r ∈ db.refs, r.2 = x → r.1 = e := by
  intro r hr hrx
  by_contra hne
  have hlt : refCountUnder db e x < refCount db x := by
    unfold refCount refCountUnder
    apply countP_lt_of_witness db.refs
    · intro a _ ha
      simp only [Bool.and_eq_true, beq_iff_eq] at ha ⊢
      exact ha.2
    · exact hr
    · simpa using hrx
    · have h1 : (r.1 == e) = false := beq_eq_false_iff_ne.mpr hne
      simp [h1]
  omega

/-! ## C1: `load_torrents_to_unpause` returns exactly the exclusively
referenced items -/

/-- C1.  For every database state and event id `e`,
`load_torrents_to_unpause` returns an item id `x` exactly when `x` is
referenced (by `e`, necessarily) and its total reference count across all
events equals its reference count under `e`; consequently it never returns an
item that some other event also references. -/
theorem load_torrents_to_unpause_exclusive (db : DB) (e x : String) :
    (x ∈ load_torrents_to_unpause db e ↔
      0 < refCountUnder db e x ∧ refCount db x = refCountUnder db e x) ∧
    (x ∈ load_torrents_to_unpause db e →
      ∀ e', e' ≠ e → (e', x) ∉ db.refs) := by
  constructor
  · rw [mem_load_torrents_to_unpause]
    constructor
    · rintro ⟨hpos, heq⟩
      exact ⟨by omega, heq⟩
    · rintro ⟨hpos, heq⟩
      exact ⟨by omega, heq⟩
  · intro hmem e' hne hcontra
    have heq := ((mem_load_torrents_to_unpause db e x).mp hmem).2
    have := refs_all_under_of_count_eq db e x heq (e', x) hcontra rfl
    exact hne this

/-- Witness for C1 on a concrete database: event `a` references `x` and `y`,
event `b` also references `y`; only `x` is exclusively paused by `a`. -/
theorem load_torrents_to_unpause_exclusive_witness :
    (("x" ∈ load_torrents_to_unpause ⟨["a", "b"], [("a", "x"), ("a", "y"), ("b", "y")]⟩ "a" ↔
      0 < refCountUnder ⟨["a", "b"], [("a", "x"), ("a", "y"), ("b", "y")]⟩ "a" "x" ∧
      refCount ⟨["a", "b"], [("a", "x"), ("a", "y"), ("b", "y")]⟩ "x" =
        refCountUnder ⟨["a", "b"], [("a", "x"), ("a", "y"), ("b", "y")]⟩ "a" "x") ∧
    ("x" ∈ load_torrents_to_unpause ⟨["a", "b"], [("a", "x"), ("a", "y"), ("b", "y")]⟩ "a" →
      ∀ e', e' ≠ "a" → (e', "x") ∉ (⟨["a", "b"], [("a", "x"), ("a", "y"), ("b", "y")]⟩ : DB).refs)) ∧
    "x" ∈ load_torrents_to_unpause ⟨["a", "b"], [("a", "x"), ("a", "y"), ("b", "y")]⟩ "a" ∧
    "y" ∉ load_torrents_to_unpause ⟨["a", "b"], [("a", "x"), ("a", "y"), ("b", "y")]⟩ "a" :=
  ⟨load_torrents_to_unpause_exclusive ⟨["a", "b"], [("a", "x"), ("a", "y"), ("b", "y")]⟩ "a" "x",
   by decide, by decide⟩

/-! ## C8: `save` atomically replaces the event's paused-item set -/

/-- Lookup in an association list built by mapping a function over the keys:
any present key maps to its function value. -/
theorem lookup_map_self {β : Type} (l : List String) (f : String → β) (e : String)
    (he : e ∈ l) : (l.map (fun a => (a, f a))).lookup e = some (f e) := by
  induction l with
  | nil => simp at he
  | cons a t ih =>
    by_cases h : e = a
    · subst h
      simp [List.lookup]
    · have hba : (e == a) = false := beq_eq_false_iff_ne.mpr h
      have het : e ∈ t := by
        rcases List.mem_cons.mp he with h' | h'
        · exact absurd h' h
        · exact h'
      simp [List.lookup, hba, ih het]

/-- After `save_torrent_hashes_to_pause e s db`, the reference rows whose
event is `e` are exactly the freshly inserted ones. -/
theorem refs_for_event_after_save (db : DB) (e : String) (s : List String) :
    ((save_torrent_hashes_to_pause e s db).refs.filter (fun r => r.1 == e)).map
        (fun r => r.2) = s := by
  unfold save_torrent_hashes_to_pause
  rw [List.filter_append]
  have h1 : (db.refs.filter (fun r => r.1 != e)).filter (fun r => r.1 == e) = [] := by
    rw [List.filter_filter]
    apply List.filter_eq_nil_iff.mpr
    intro a _
    simp
  have h2 : (s.map (fun i => (e, i))).filter (fun r => r.1 == e) = s.map (fun i => (e, i)) := by
    apply List.filter_eq_self.mpr
    intro a ha
    rcases List.mem_map.mp ha with ⟨i, _, rfl⟩
    simp
  rw [h1, h2, List.nil_append, List.map_map]
  simp

/-- C8.  For every prior database state, every event id `e` and every item
set `s`: saving `(e, s)` and then reading the table listing for `e` yields
exactly `s` (as a set of item ids) — the save replaces the event's whole set
rather than accumulating — and a save whose transaction fails leaves the
database exactly as it was (rollback, no partial set). -/
theorem save_then_listing (db : DB) (e : String) (s : List String) :
    (∃ l, (get_table_data (save_torrent_hashes_to_pause e s db)).lookup e = some l ∧
      ∀ x, x ∈ l ↔ x ∈ s) ∧
    save_torrent_hashes_run e s db false = (db, false) := by
  constructor
  · have he : e ∈ (save_torrent_hashes_to_pause e s db).events.mergeSort strLe := by
      rw [List.mem_mergeSort]
      unfold save_torrent_hashes_to_pause
      simp
    refine ⟨_, lookup_map_self _ _ e he, ?_⟩
    intro x
    rw [List.mem_mergeSort, refs_for_event_after_save]
  · rfl

/-- Witness for C8 at a concrete input: the prior state has `("a", "x")`; the
new save of event `a` with items `y, z` replaces it entirely. -/
theorem save_then_listing_witness :
    ((∃ l, (get_table_data (save_torrent_hashes_to_pause "a" ["y", "z"] ⟨["a"], [("a", "x")]⟩)).lookup "a" = some l ∧
      ∀ x, x ∈ l ↔ x ∈ (["y", "z"] : List String)) ∧
    save_torrent_hashes_run "a" ["y", "z"] ⟨["a"], [("a", "x")]⟩ false = (⟨["a"], [("a", "x")]⟩, false)) ∧
    "x" ∉ load_torrents_to_unpause (save_torrent_hashes_to_pause "a" ["y", "z"] ⟨["a"], [("a", "x")]⟩) "a" :=
  ⟨save_then_listing ⟨["a"], [("a", "x")]⟩ "a" ["y", "z"], by decide⟩

/-! ## Remote data model (`qbittorrentapi` entities as consumed by
`handlers.py`) -/

/-- Tracker status values of the qBittorrent API. -/
inductive TrackerSt
  | disabled
  | notContacted
  | working
  | updating
  | notWorking
  deriving DecidableEq, Repr

/-- One tracker entry as returned by `torrents_trackers`. -/
structure Tracker where
  status : TrackerSt
  msg : String
  url : String
  deriving DecidableEq, Repr

/-- One torrent as returned by `torrents_info`.  The boolean fields embed the
`state_enum` predicates used by the handlers (`is_paused` is the
qbittorrentapi alias of `is_stopped`). -/
structure Torrent where
  hash : String
  name : String
  category : String
  ratio : Rat
  progress : Rat
  isChecking : Bool
  isStopped : Bool
  isComplete : Bool
  isDownloading : Bool
  lastActivity : Int
  timeActive : Nat
  deriving DecidableEq, Repr

/-- External interactions recorded by the models, in program order.  `infoQ`
and `trackersQ` are read-only queries; `saveEv` / `saveFail` mark the ledger
save transaction committing / raising; the rest are remote mutations. -/
inductive Call
  | infoQ
  | trackersQ
  | saveEv
  | saveFail
  | pauseC (hashes : List String)
  | resumeC (hashes : List String)
  | reannC
  | recheckC
  | stopC
  | startC
  | sleepC (seconds : Rat)
  deriving DecidableEq, Repr

/-- Remote mutations: requests that change state on the qBittorrent side. -/
def isMutation : Call → Bool
  | .pauseC _ => true
  | .resumeC _ => true
  | .reannC => true
  | .recheckC => true
  | .stopC => true
  | .startC => true
  | _ => false

/-- The mutations contained in a trace. -/
def mutCalls (tr : List Call) : List Call := tr.filter isMutation

/-! ## ReannounceEngine (`_reannounce_until_working` and helpers) -/

/-- Snapshot of the remote state for one iteration of the reannounce loop:
the racing torrent as the iteration's `torrents_info` fetch reports it (none
when it vanished), the tracker list as the iteration's `torrents_trackers`
fetches report it, and the `stop_event` flag as the iteration's check point
observes it. -/
structure ReannSnap where
  torrent : Option Torrent
  trackers : List Tracker
  stop : Bool
  deriving DecidableEq, Repr

/-- Does any tracker report `WORKING`? -/
def hasWorking (tks : List Tracker) : Bool :=
  tks.any (fun tk => tk.status == TrackerSt.working)

/-- Does any tracker report `UPDATING`? -/
def hasUpdating (tks : List Tracker) : Bool :=
  tks.any (fun tk => tk.status == TrackerSt.updating)

/-- Condition of `_handle_unregistered_torrent`: some `NOT_WORKING` tracker
whose lowercased message contains an entry of `UNREGISTERED_MESSAGES`. -/
def unregFires (tks : List Tracker) : Bool :=
  (tks.filter (fun tk => tk.status == TrackerSt.notWorking)).any
    (fun tk => UNREGISTERED_MESSAGES.any (fun m => lowerContains tk.msg m))

/-- Condition of `_handle_too_many_requests`: some `NOT_WORKING` or
`UPDATING` tracker whose lowercased message contains "too many requests". -/
def tooManyFires (tks : List Tracker) : Bool :=
  (tks.filter (fun tk => tk.status == TrackerSt.notWorking || tk.status == TrackerSt.updating)).any
    (fun tk => lowerContains tk.msg "too many requests")

/-- Embedding of `_handle_unregistered_torrent(client, torrent)`: fetch the
trackers; when an unregistered message is present, force a recheck if the
torrent's progress is exactly 0, otherwise a stop followed by a start, and
report `true`; otherwise report `false`. -/
def handle_unregistered_torrent (t : Torrent) (tks : List Tracker) : Bool × List Call :=
  if unregFires tks then
    if t.progress == 0 then (true, [.trackersQ, .recheckC])
    else (true, [.trackersQ, .stopC, .startC])
  else (false, [.trackersQ])

/-- Embedding of `_handle_too_many_requests(client, torrent, stop_event)`:
fetch the trackers; on a rate-limit message sleep the fixed cooldown and
report `true`. -/
def handle_too_many_requests (tks : List Tracker) : Bool × List Call :=
  if tooManyFires tks then (true, [.trackersQ, .sleepC TOO_MANY_REQUESTS_DELAY])
  else (false, [.trackersQ])

/-- Embedding of `_reannounce(client, torrent)`: skip when a tracker already
works; otherwise send one reannounce, then report whether any non-disabled
tracker now works (same snapshot: the client answers consistently within the
iteration). -/
def reannounce_once (tks : List Tracker) : Bool × List Call :=
  if hasWorking tks then (true, [.trackersQ])
  else
    let post := (tks.filter (fun tk => tk.status != TrackerSt.disabled)).any
      (fun tk => tk.status == TrackerSt.working)
    (post, [.trackersQ, .reannC, .trackersQ])

/-- Terminal states of the reannounce loop.  `working` is the `True` return;
`vanished`, `stoppedT` and `gaveUp` are the three `False` returns;
`interruptedR` is the `TaskInterrupted` raise; `fuelOut` means the snapshot
list was exhausted while the Python loop would have kept iterating. -/
inductive ReannResult
  | working
  | vanished
  | stoppedT
  | gaveUp
  | interruptedR
  | fuelOut
  deriving DecidableEq, Repr

/-- Loop guard of `_reannounce_until_working`:
`while not max_reannounce or reannounce_count < max_reannounce` (note the
Python falsiness: a limit of `0` also means unlimited). -/
def loop_condition (maxR : Option Nat) (count : Nat) : Bool :=
  match maxR with
  | none => true
  | some m => m == 0 || count < m

/-- Embedding of `_reannounce_until_working(client, max_reannounce,
reannounce_frequency, torrent_hash, stop_event)`.  One list element per loop
iteration; `count` is `reannounce_count`.  Each iteration: re-fetch the
torrent (absent → `False`; stopped → `False`), check the stop event
(set → raise), fetch the trackers (any working → `True`; any updating →
sleep the interval and restart without consuming an attempt), run the
unregistered and rate-limit handlers (either firing restarts without
consuming an attempt), else reannounce once, consume an attempt and sleep.
When the guard fails, one final informational fetch precedes the `False`
return. -/
def reannounce_until_working (maxR : Option Nat) (freq : Rat) :
    List ReannSnap → Nat → ReannResult × List Call
  | snaps, count =>
    if loop_condition maxR count then
      match snaps with
      | [] => (.fuelOut, [])
      | s :: rest =>
        match s.torrent with
        | none => (.vanished, [.infoQ])
        | some t =>
          if t.isStopped then (.stoppedT, [.infoQ])
          else if s.stop then (.interruptedR, [.infoQ])
          else if hasWorking s.trackers then (.working, [.infoQ, .trackersQ])
          else if hasUpdating s.trackers then
            let r := reannounce_until_working maxR freq rest count
            (r.1, [.infoQ, .trackersQ, .sleepC freq] ++ r.2)
          else
            let hu := handle_unregistered_torrent t s.trackers
            if hu.1 then
              let r := reannounce_until_working maxR freq rest count
              (r.1, [.infoQ, .trackersQ] ++ hu.2 ++ r.2)
            else
              let htm := handle_too_many_requests s.trackers
              if htm.1 then
                let r := reannounce_until_working maxR freq rest count
                (r.1, [.infoQ, .trackersQ] ++ hu.2 ++ htm.2 ++ r.2)
              else
                let ra := reannounce_once s.trackers
                if ra.1 then (.working, [.infoQ, .trackersQ] ++ hu.2 ++ htm.2 ++ ra.2)
                else
                  let r := reannounce_until_working maxR freq rest (count + 1)
                  (r.1, [.infoQ, .trackersQ] ++ hu.2 ++ htm.2 ++ ra.2 ++ [.sleepC freq] ++ r.2)
    else (.gaveUp, [.infoQ])

/-! ## C7: a working tracker on the first check means immediate success with
no mutation -/

/-- C7.  For every reannounce run whose first iteration finds the torrent
present and not stopped, no pending cancellation, and at least one tracker
already `WORKING`, the run returns `True` at once and its whole trace is the
two read-only fetches — no reannounce, recheck, stop, start, pause or resume
request is issued. -/
theorem first_check_working (maxR : Option Nat) (freq : Rat) (s : ReannSnap)
    (rest : List ReannSnap) (t : Torrent)
    (hcond : loop_condition maxR 0 = true)
    (ht : s.torrent = some t) (hstop : s.stop = false)
    (hstopped : t.isStopped = false) (hw : hasWorking s.trackers = true) :
    reannounce_until_working maxR freq (s :: rest) 0 =
      (ReannResult.working, [Call.infoQ, Call.trackersQ]) ∧
    mutCalls [Call.infoQ, Call.trackersQ] = [] := by
  constructor
  · rw [reannounce_until_working]
    simp [hcond, ht, hstop, hstopped, hw]
  · rfl

/-- Witness for C7: one snapshot whose single tracker is already working. -/
theorem first_check_working_witness :
    reannounce_until_working none 5 [⟨some ⟨"h", "n", "", 1, 1, false, false, false, false, 0, 0⟩,
        [⟨TrackerSt.working, "", "u"⟩], false⟩] 0 =
      (ReannResult.working, [Call.infoQ, Call.trackersQ]) ∧
    mutCalls [Call.infoQ, Call.trackersQ] = [] :=
  first_check_working none 5 _ [] _ (by decide) rfl rfl rfl (by decide)

/-! ## C5: handling of "unregistered" trackers -/

/-- Snapshot refuting C5 as stated: the torrent has progress 0 and a
`NOT_WORKING` tracker whose message is an unregistered keyword, but a second
tracker is `UPDATING`. -/
def c5CexSnap : ReannSnap :=
  ⟨some ⟨"h", "n", "", 1, 0, false, false, false, false, 0, 0⟩,
   [⟨TrackerSt.updating, "", "u1"⟩, ⟨TrackerSt.notWorking, "Unregistered torrent", "u2"⟩],
   false⟩

/-- Counterexample to C5 as stated.  In this iteration a not-working tracker
carries the keyword "unregistered" and the torrent's progress is exactly 0,
yet no recheck (and no stop/start) is issued: the updating tracker takes
priority, so the iteration only sleeps the normal interval.  The claim's
"exactly one recheck request is issued" is therefore false for this
iteration. -/
theorem unregistered_step_cex :
    unregFires c5CexSnap.trackers = true ∧
    (c5CexSnap.torrent.map (fun t => t.progress)) = some 0 ∧
    (reannounce_until_working none 5 [c5CexSnap] 0).2.count Call.recheckC = 0 ∧
    (reannounce_until_working none 5 [c5CexSnap] 0).2 =
      [Call.infoQ, Call.trackersQ, Call.sleepC 5] := by
  refine ⟨by decide, by decide, ?_, ?_⟩ <;>
    · rw [reannounce_until_working]
      simp [loop_condition, c5CexSnap, hasWorking, hasUpdating, reannounce_until_working]

/-- C5 as amended: in an iteration where the torrent is present and not
stopped, no cancellation is pending, no tracker is `WORKING` or `UPDATING`,
and some `NOT_WORKING` tracker's message contains an unregistered keyword:
if progress is exactly 0 the only mutation issued is one recheck, otherwise
exactly one stop followed by one start, and the loop restarts with the
attempt counter unchanged. -/
theorem unregistered_step (maxR : Option Nat) (freq : Rat) (count : Nat)
    (rest : List ReannSnap) (s : ReannSnap) (t : Torrent)
    (hcond : loop_condition maxR count = true)
    (ht : s.torrent = some t) (hstop : s.stop = false)
    (hstopped : t.isStopped = false)
    (hw : hasWorking s.trackers = false) (hupd : hasUpdating s.trackers = false)
    (hu : unregFires s.trackers = true) :
    ∃ iter, reannounce_until_working maxR freq (s :: rest) count =
        ((reannounce_until_working maxR freq rest count).1,
          iter ++ (reannounce_until_working maxR freq rest count).2) ∧
      mutCalls iter =
        (if t.progress == 0 then [Call.recheckC] else [Call.stopC, Call.startC]) := by
  by_cases hp : t.progress == 0
  · refine ⟨[Call.infoQ, Call.trackersQ, Call.trackersQ, Call.recheckC], ?_, by simp [hp, mutCalls, isMutation]⟩
    rw [reannounce_until_working]
    simp [hcond, ht, hstop, hstopped, hw, hupd, handle_unregistered_torrent, hu, hp]
  · refine ⟨[Call.infoQ, Call.trackersQ, Call.trackersQ, Call.stopC, Call.startC], ?_, by simp [hp, mutCalls, isMutation]⟩
    rw [reannounce_until_working]
    simp [hcond, ht, hstop, hstopped, hw, hupd, handle_unregistered_torrent, hu, hp]

/-- Witness for the amended C5: a lone not-working "unregistered" tracker,
progress 0, so the iteration's only mutation is one recheck. -/
theorem unregistered_step_witness :
    ∃ iter, reannounce_until_working none 5
        [⟨some ⟨"h", "n", "", 1, 0, false, false, false, false, 0, 0⟩,
          [⟨TrackerSt.notWorking, "Unregistered torrent", "u"⟩], false⟩] 0 =
        ((reannounce_until_working none 5 [] 0).1,
          iter ++ (reannounce_until_working none 5 [] 0).2) ∧
      mutCalls iter =
        (if (0 : Rat) == 0 then [Call.recheckC] else [Call.stopC, Call.startC]) :=
  unregistered_step none 5 0 []
    ⟨some ⟨"h", "n", "", 1, 0, false, false, false, false, 0, 0⟩,
      [⟨TrackerSt.notWorking, "Unregistered torrent", "u"⟩], false⟩
    ⟨"h", "n", "", 1, 0, false, false, false, false, 0, 0⟩
    (by decide) rfl rfl rfl (by decide) (by decide) (by decide)

/-! ## C6: rate-limit handling and giving up -/

/-- Snapshot refuting the first half of C6 as stated: the only tracker is
`UPDATING` with a rate-limit message. -/
def c6CexSnap : ReannSnap :=
  ⟨some ⟨"h", "n", "", 1, 0, false, false, false, false, 0, 0⟩,
   [⟨TrackerSt.updating, "Too Many Requests", "u"⟩], false⟩

/-- Counterexample to C6 as stated.  An updating tracker's message contains
"too many requests", but the iteration does not wait the fixed cooldown
(`TOO_MANY_REQUESTS_DELAY = 10`): the updating branch takes priority and the
iteration sleeps only the normal interval (5 here). -/
theorem too_many_requests_cex :
    tooManyFires c6CexSnap.trackers = true ∧
    (reannounce_until_working none 5 [c6CexSnap] 0).2 =
      [Call.infoQ, Call.trackersQ, Call.sleepC 5] ∧
    Call.sleepC TOO_MANY_REQUESTS_DELAY ∉ (reannounce_until_working none 5 [c6CexSnap] 0).2 := by
  refine ⟨by decide, ?_, ?_⟩
  · rw [reannounce_until_working]
    simp [loop_condition, c6CexSnap, hasWorking, hasUpdating, reannounce_until_working]
  · rw [reannounce_until_working]
    simp [loop_condition, c6CexSnap, hasWorking, hasUpdating, reannounce_until_working,
      TOO_MANY_REQUESTS_DELAY]

/-- A step of the loop that consumes an attempt: torrent present and not
stopped, no cancellation, and no tracker condition with higher priority
(working, updating, unregistered, rate-limited). -/
def consumeStep (s : ReannSnap) : Bool :=
  (s.torrent.any (fun t => !t.isStopped)) && !s.stop &&
    !hasWorking s.trackers && !hasUpdating s.trackers &&
    !unregFires s.trackers && !tooManyFires s.trackers

/-- Without a working tracker there is no working tracker among the
non-disabled ones either. -/
theorem noWorking_filter (tks : List Tracker) (h : hasWorking tks = false) :
    (tks.filter (fun tk => tk.status != TrackerSt.disabled)).any
      (fun tk => tk.status == TrackerSt.working) = false := by
  by_contra hc
  rw [Bool.not_eq_false, List.any_eq_true] at hc
  rcases hc with ⟨tk, htk, hw⟩
  have : hasWorking tks = true :=
    List.any_eq_true.mpr ⟨tk, (List.mem_filter.mp htk).1, hw⟩
  rw [h] at this
  exact Bool.false_ne_true this

/-- A consuming step recurses with the counter incremented by one. -/
theorem consume_step_unfold (maxR : Option Nat) (freq : Rat) (count : Nat)
    (s : ReannSnap) (rest : List ReannSnap)
    (hcond : loop_condition maxR count = true) (hc : consumeStep s = true) :
    reannounce_until_working maxR freq (s :: rest) count =
      ((reannounce_until_working maxR freq rest (count + 1)).1,
        [Call.infoQ, Call.trackersQ, Call.trackersQ, Call.trackersQ, Call.trackersQ,
          Call.reannC, Call.trackersQ, Call.sleepC freq] ++
          (reannounce_until_working maxR freq rest (count + 1)).2) := by
  unfold consumeStep at hc
  simp only [Bool.and_eq_true, Bool.not_eq_true'] at hc
  obtain ⟨⟨⟨⟨⟨hsome, hstop⟩, hw⟩, hupd⟩, hunreg⟩, htm⟩ := hc
  match hts : s.torrent with
  | none =>
    rw [hts] at hsome
    simp [Option.any] at hsome
  | some t =>
    rw [hts] at hsome
    have hstopped : t.isStopped = false := by
      simpa [Option.any] using hsome
    rw [reannounce_until_working]
    simp [hcond, hts, hstop, hstopped, hw, hupd, handle_unregistered_torrent, hunreg,
      handle_too_many_requests, htm, reannounce_once, noWorking_filter _ hw]

/-- After `m` consuming steps from counter `count` with `m ≤ count + length`,
the loop gives up. -/
theorem give_up_aux (freq : Rat) (m : Nat) (hm : 0 < m) :
    ∀ (snaps : List ReannSnap) (count : Nat),
      (∀ p ∈ snaps, consumeStep p = true) → m ≤ count + snaps.length →
      (reannounce_until_working (some m) freq snaps count).1 = ReannResult.gaveUp := by
  intro snaps
  induction snaps with
  | nil =>
    intro count _ hlen
    rw [reannounce_until_working]
    have : loop_condition (some m) count = false := by
      unfold loop_condition
      simp only [List.length_nil, Nat.add_zero] at hlen
      simp only [Bool.or_eq_false_iff, beq_eq_false_iff_ne, ne_eq, decide_eq_false_iff_not]
      omega
    simp [this]
  | cons p rest ih =>
    intro count hall hlen
    by_cases hcond : loop_condition (some m) count = true
    · rw [consume_step_unfold (some m) freq count p rest hcond
        (hall p (List.mem_cons_self p rest))]
      apply ih
      · intro q hq
        exact hall q (List.mem_cons_of_mem p hq)
      · simp only [List.length_cons] at hlen
        omega
    · rw [reannounce_until_working]
      simp only [Bool.not_eq_true] at hcond
      simp [hcond]

/-- C6 as amended.  (a) An iteration where the torrent is present and not
stopped, no cancellation is pending, no tracker is working or updating, no
unregistered keyword fires, and some not-working tracker's message contains
"too many requests", waits the fixed cooldown, issues no mutation, and
restarts without consuming an attempt.  (b) An iteration with an updating
tracker (for example one reporting "too many requests") waits the normal
interval instead of the cooldown, also without consuming an attempt.  (c)
With `maxAttempts = m > 0`, after `m` consumed attempts with no tracker ever
working, the loop returns `False` (gives up). -/
theorem too_many_requests_and_give_up :
    (∀ (maxR : Option Nat) (freq : Rat) (count : Nat) (rest : List ReannSnap)
        (s : ReannSnap) (t : Torrent),
      loop_condition maxR count = true →
      s.torrent = some t → s.stop = false → t.isStopped = false →
      hasWorking s.trackers = false → hasUpdating s.trackers = false →
      unregFires s.trackers = false → tooManyFires s.trackers = true →
      ∃ iter, reannounce_until_working maxR freq (s :: rest) count =
          ((reannounce_until_working maxR freq rest count).1,
            iter ++ (reannounce_until_working maxR freq rest count).2) ∧
        mutCalls iter = [] ∧ Call.sleepC TOO_MANY_REQUESTS_DELAY ∈ iter) ∧
    (∀ (maxR : Option Nat) (freq : Rat) (count : Nat) (rest : List ReannSnap)
        (s : ReannSnap) (t : Torrent),
      loop_condition maxR count = true →
      s.torrent = some t → s.stop = false → t.isStopped = false →
      hasWorking s.trackers = false → hasUpdating s.trackers = true →
      reannounce_until_working maxR freq (s :: rest) count =
        ((reannounce_until_working maxR freq rest count).1,
          [Call.infoQ, Call.trackersQ, Call.sleepC freq] ++
            (reannounce_until_working maxR freq rest count).2)) ∧
    (∀ (freq : Rat) (m : Nat) (snaps : List ReannSnap),
      0 < m → (∀ p ∈ snaps, consumeStep p = true) → m ≤ snaps.length →
      (reannounce_until_working (some m) freq snaps 0).1 = ReannResult.gaveUp) := by
  refine ⟨?_, ?_, ?_⟩
  · intro maxR freq count rest s t hcond ht hstop hstopped hw hupd hunreg htm
    refine ⟨[Call.infoQ, Call.trackersQ, Call.trackersQ, Call.trackersQ,
      Call.sleepC TOO_MANY_REQUESTS_DELAY], ?_, by decide, by simp⟩
    rw [reannounce_until_working]
    simp [hcond, ht, hstop, hstopped, hw, hupd, handle_unregistered_torrent, hunreg,
      handle_too_many_requests, htm]
  · intro maxR freq count rest s t hcond ht hstop hstopped hw hupd
    rw [reannounce_until_working]
    simp [hcond, ht, hstop, hstopped, hw, hupd]
  · intro freq m snaps hm hall hlen
    exact give_up_aux freq m hm snaps 0 hall (by omega)

/-- Witness for the amended C6: a lone not-working rate-limited tracker
triggers the cooldown without consuming an attempt, and two consuming
snapshots exhaust a limit of 2. -/
theorem too_many_requests_and_give_up_witness :
    (∃ iter, reannounce_until_working none 5
        [⟨some ⟨"h", "n", "", 1, 0, false, false, false, false, 0, 0⟩,
          [⟨TrackerSt.notWorking, "Too Many Requests", "u"⟩], false⟩] 0 =
        ((reannounce_until_working none 5 [] 0).1,
          iter ++ (reannounce_until_working none 5 [] 0).2) ∧
      mutCalls iter = [] ∧ Call.sleepC TOO_MANY_REQUESTS_DELAY ∈ iter) ∧
    (reannounce_until_working (some 2) 5
        [⟨some ⟨"h", "n", "", 1, 0, false, false, false, false, 0, 0⟩,
          [⟨TrackerSt.notContacted, "", "u"⟩], false⟩,
         ⟨some ⟨"h", "n", "", 1, 0, false, false, false, false, 0, 0⟩,
          [⟨TrackerSt.notContacted, "", "u"⟩], false⟩] 0).1 = ReannResult.gaveUp :=
  ⟨too_many_requests_and_give_up.1 none 5 0 []
      ⟨some ⟨"h", "n", "", 1, 0, false, false, false, false, 0, 0⟩,
        [⟨TrackerSt.notWorking, "Too Many Requests", "u"⟩], false⟩
      ⟨"h", "n", "", 1, 0, false, false, false, false, 0, 0⟩
      (by decide) rfl rfl rfl (by decide) (by decide) (by decide) (by decide),
   too_many_requests_and_give_up.2.2 5 2 _ (by decide) (by decide) (by decide)⟩

/-! ## RaceOrchestrator (`race` in `handlers.py`) -/

/-- Racing section of the configuration (`config["racing"]`), with optional
keys as the handlers probe them. -/
structure RacingConfig where
  race_categories : List String
  max_reannounce : Option Int
  reannounce_frequency : Option Rat
  pausing : Option (Option Rat)
  deriving DecidableEq, Repr

/-- Top-level configuration as consumed by `race`: the racing section plus
the optional `ignore_categories` list (absent key modelled as `[]`, which is
also how the code defaults it).  `pausing = some r?` means the "pausing" key
is present with optional "ratio" `r?`. -/
structure AppConfig where
  racing : RacingConfig
  ignore_categories : List String
  deriving DecidableEq, Repr

/-- Normalisation of `max_reannounce` in `race`: kept only when present and
strictly positive, otherwise unlimited (`None`). -/
def normMax : Option Int → Option Nat
  | none => none
  | some m => if 0 < m then some m.toNat else none

/-- Default of `reannounce_frequency` in `race`: 5.0 seconds. -/
def freqOf (f : Option Rat) : Rat := f.getD 5

/-- Embedding of the racing-torrent category check (`race`, after the
torrent lookup): with a non-empty race-category list, refuse a torrent with
no category or a category outside the list. -/
def categoryReject (raceCats : List String) (t : Torrent) : Bool :=
  if raceCats.isEmpty then false
  else t.category == "" || !(raceCats.contains t.category)

/-- Embedding of `_is_torrent_manually_paused(torrent)`: paused/stopped but
not recorded in the ledger. -/
def is_torrent_manually_paused (dbPaused : List String) (t : Torrent) : Bool :=
  t.isStopped && !(dbPaused.contains t.hash)

/-- Adding a hash to the Python set `torrent_hashes_to_pause`. -/
def insertHash (acc : List String) (h : String) : List String :=
  if acc.contains h then acc else acc ++ [h]

/-- One torrent's treatment in the pause-selection loop of `race`: skip
ignored categories, skip manually paused torrents, pause torrents outside
the race categories, else pause by ratio unless still downloading. -/
def pauseStep (raceCats ignoreCats : List String) (ratio : Rat) (dbPaused : List String)
    (acc : List String) (t : Torrent) : List String :=
  if ignoreCats.contains t.category then acc
  else if is_torrent_manually_paused dbPaused t then acc
  else if !raceCats.isEmpty && !(raceCats.contains t.category) then insertHash acc t.hash
  else if ratio ≤ t.ratio then (if t.isDownloading then acc else insertHash acc t.hash)
  else acc

/-- The pause-selection loop of `race` over the remaining torrents. -/
def computePauseSet (raceCats ignoreCats : List String) (ratio : Rat)
    (dbPaused : List String) (ts : List Torrent) : List String :=
  ts.foldl (pauseStep raceCats ignoreCats ratio dbPaused) []

/-- Snapshot for one iteration of the checking-state poll loop in `race`:
the racing torrent as that iteration's fetch reports it, and the stop-event
flag as that iteration's check observes it. -/
structure PollSnap where
  torrent : Option Torrent
  stop : Bool
  deriving DecidableEq, Repr

/-- Results of the checking-state poll loop. -/
inductive PollRes
  | found (t : Torrent)
  | vanishedP
  | interruptedP
  | fuelOutP
  deriving DecidableEq, Repr

/-- Embedding of the poll loop in `race`: fetch the racing torrent (absent →
exit), check the stop event (set → raise `TaskInterrupted`), exit the loop
once the torrent is no longer checking, else sleep 0.1 s and retry. -/
def pollPhase : List PollSnap → PollRes × List Call
  | [] => (.fuelOutP, [])
  | s :: rest =>
    match s.torrent with
    | none => (.vanishedP, [.infoQ])
    | some t =>
      if s.stop then (.interruptedP, [.infoQ])
      else if t.isChecking then
        let r := pollPhase rest
        (r.1, [.infoQ, .sleepC (1 / 10)] ++ r.2)
      else (.found t, [.infoQ])

/-- Environment of one `race` run: the response to the initial
`torrents_info`, the ledger's paused hashes (constant during the run), the
poll and reannounce snapshots, whether the ledger save transaction commits,
and which hashes the client still knows at cleanup time. -/
structure RaceEnv where
  torrents : List Torrent
  dbPaused : List String
  pollSnaps : List PollSnap
  saveOk : Bool
  reannSnaps : List ReannSnap
  cleanupPresent : List String
  deriving DecidableEq, Repr

/-- Outcomes of `race`: the exit codes 0 and 1, the `IOError` raised on a
failed ledger save, the propagated `TaskInterrupted`, and snapshot-fuel
exhaustion. -/
inductive RaceOutcome
  | exit0
  | exit1
  | ioError
  | interruptedRun
  | fuelOutRun
  deriving DecidableEq, Repr

/-- Embedding of `_resume_torrents(client, paused_torrent_hashes)`: nothing
to do on an empty set; otherwise fetch which of the hashes still exist and
resume exactly those. -/
def resume_torrents (paused present : List String) : List Call :=
  if paused.isEmpty then []
  else [.infoQ, .resumeC (paused.filter (fun h => present.contains h))]

/-- The set `torrent_hashes_to_pause` computed by a `race` run: empty unless
the "pausing" key is present; ratio defaults to 0; the racing torrent itself
is removed from the candidate list first. -/
def racePauseSet (cfg : AppConfig) (hash : String) (env : RaceEnv) : List String :=
  match cfg.racing.pausing with
  | none => []
  | some ratio? =>
      computePauseSet cfg.racing.race_categories cfg.ignore_categories (ratio?.getD 0)
        env.dbPaused (env.torrents.eraseP (fun t => t.hash == hash))

/-- Continuation of `race` once the poll loop has delivered the racing
torrent `t`: refuse paused/stopped or complete torrents, save the pause set
to the ledger (a failing transaction raises `IOError` before any pause
request), issue the pause request for a non-empty set, then run the
reannounce loop; on a `False` result resume what this run paused and exit 1;
on `TaskInterrupted` resume what this run paused and re-raise. -/
def raceAfterChecking (cfg : AppConfig) (env : RaceEnv) (t : Torrent) (S : List String)
    (preTr : List Call) : RaceOutcome × List Call :=
  if t.isStopped then (.exit1, preTr)
  else if t.isComplete then (.exit1, preTr)
  else if !env.saveOk then (.ioError, preTr ++ [.saveFail])
  else
    let tr1 := preTr ++ [.saveEv] ++ (if S.isEmpty then [] else [.pauseC S])
    let r := reannounce_until_working (normMax cfg.racing.max_reannounce)
      (freqOf cfg.racing.reannounce_frequency) env.reannSnaps 0
    match r.1 with
    | .working => (.exit0, tr1 ++ r.2)
    | .fuelOut => (.fuelOutRun, tr1 ++ r.2)
    | .interruptedR => (.interruptedRun, tr1 ++ r.2 ++ resume_torrents S env.cleanupPresent)
    | _ => (.exit1, tr1 ++ r.2 ++ resume_torrents S env.cleanupPresent)

/-- Embedding of `race(config, racing_torrent_hash, stop_event)`: initial
torrent listing, racing-torrent lookup, category check, pause-set selection,
checking-state poll, then `raceAfterChecking`. -/
def race (cfg : AppConfig) (hash : String) (env : RaceEnv) : RaceOutcome × List Call :=
  match env.torrents.find? (fun t => t.hash == hash) with
  | none => (.exit1, [.infoQ])
  | some racing =>
    if categoryReject cfg.racing.race_categories racing then (.exit1, [.infoQ])
    else
      let S := racePauseSet cfg hash env
      let pr := pollPhase env.pollSnaps
      match pr.1 with
      | .vanishedP => (.exit1, [.infoQ] ++ pr.2)
      | .interruptedP => (.interruptedRun, [.infoQ] ++ pr.2)
      | .fuelOutP => (.fuelOutRun, [.infoQ] ++ pr.2)
      | .found t => raceAfterChecking cfg env t S ([.infoQ] ++ pr.2)

/-! ## C4: a failed ledger save aborts before any pause request -/

/-- Ledger-save markers and pause requests: the calls whose relative order
C4 is about. -/
def isLedgerOrPause : Call → Bool
  | .pauseC _ => true
  | .saveEv => true
  | .saveFail => true
  | _ => false

/-- A list all of whose calls are ledger-free cannot contain a call that is
not. -/
theorem not_mem_of_ledger_free (l : List Call)
    (h : ∀ c ∈ l, isLedgerOrPause c = false) (c : Call)
    (hc : isLedgerOrPause c = true) : c ∉ l := by
  intro hm
  rw [h c hm] at hc
  exact Bool.false_ne_true hc

/-- Unfolding of a loop iteration whose snapshot has an updating tracker
(and no working one): sleep the interval and restart without consuming an
attempt. -/
theorem loop_unfold_updating (maxR : Option Nat) (freq : Rat) (count : Nat)
    (s : ReannSnap) (rest : List ReannSnap) (t : Torrent)
    (hcond : loop_condition maxR count = true) (ht : s.torrent = some t)
    (hstop : s.stop = false) (hstopped : t.isStopped = false)
    (hw : hasWorking s.trackers = false) (hupd : hasUpdating s.trackers = true) :
    reannounce_until_working maxR freq (s :: rest) count =
      ((reannounce_until_working maxR freq rest count).1,
        [Call.infoQ, Call.trackersQ, Call.sleepC freq] ++
          (reannounce_until_working maxR freq rest count).2) := by
  rw [reannounce_until_working]
  simp [hcond, ht, hstop, hstopped, hw, hupd]

/-- Unfolding of a loop iteration where the unregistered handler fires:
run its actions and restart without consuming an attempt. -/
theorem loop_unfold_unreg (maxR : Option Nat) (freq : Rat) (count : Nat)
    (s : ReannSnap) (rest : List ReannSnap) (t : Torrent)
    (hcond : loop_condition maxR count = true) (ht : s.torrent = some t)
    (hstop : s.stop = false) (hstopped : t.isStopped = false)
    (hw : hasWorking s.trackers = false) (hupd : hasUpdating s.trackers = false)
    (hu : unregFires s.trackers = true) :
    reannounce_until_working maxR freq (s :: rest) count =
      ((reannounce_until_working maxR freq rest count).1,
        [Call.infoQ, Call.trackersQ] ++ (handle_unregistered_torrent t s.trackers).2 ++
          (reannounce_until_working maxR freq rest count).2) := by
  have hfst : (handle_unregistered_torrent t s.trackers).1 = true := by
    unfold handle_unregistered_torrent
    by_cases hp : t.progress == 0 <;> simp [hu, hp]
  rw [reannounce_until_working]
  simp [hcond, ht, hstop, hstopped, hw, hupd, hfst]

/-- Unfolding of a loop iteration where the rate-limit handler fires: sleep
the cooldown and restart without consuming an attempt. -/
theorem loop_unfold_toomany (maxR : Option Nat) (freq : Rat) (count : Nat)
    (s : ReannSnap) (rest : List ReannSnap) (t : Torrent)
    (hcond : loop_condition maxR count = true) (ht : s.torrent = some t)
    (hstop : s.stop = false) (hstopped : t.isStopped = false)
    (hw : hasWorking s.trackers = false) (hupd : hasUpdating s.trackers = false)
    (hu : unregFires s.trackers = false) (htm : tooManyFires s.trackers = true) :
    reannounce_until_working maxR freq (s :: rest) count =
      ((reannounce_until_working maxR freq rest count).1,
        [Call.infoQ, Call.trackersQ] ++ (handle_unregistered_torrent t s.trackers).2 ++
          (handle_too_many_requests s.trackers).2 ++
          (reannounce_until_working maxR freq rest count).2) := by
  have hfst : (handle_unregistered_torrent t s.trackers).1 = false := by
    simp [handle_unregistered_torrent, hu]
  have hfst2 : (handle_too_many_requests s.trackers).1 = true := by
    simp [handle_too_many_requests, htm]
  rw [reannounce_until_working]
  simp [hcond, ht, hstop, hstopped, hw, hupd, hfst, hfst2]

/-- The trace of the unregistered handler carries no ledger marker and no
pause request. -/
theorem handle_unregistered_ledger_free (t : Torrent) (tks : List Tracker) :
    ∀ c ∈ (handle_unregistered_torrent t tks).2, isLedgerOrPause c = false := by
  unfold handle_unregistered_torrent
  split_ifs <;> intro c hc <;> fin_cases hc <;> rfl

/-- The trace of the rate-limit handler carries no ledger marker and no
pause request. -/
theorem handle_too_many_ledger_free (tks : List Tracker) :
    ∀ c ∈ (handle_too_many_requests tks).2, isLedgerOrPause c = false := by
  unfold handle_too_many_requests
  split_ifs <;> intro c hc <;> fin_cases hc <;> rfl

/-- The reannounce loop emits no ledger marker and no pause request. -/
theorem reann_loop_ledger_free (maxR : Option Nat) (freq : Rat) :
    ∀ (snaps : List ReannSnap) (count : Nat),
      ∀ c ∈ (reannounce_until_working maxR freq snaps count).2,
        isLedgerOrPause c = false := by
  intro snaps
  induction snaps with
  | nil =>
    intro count c hc
    rw [reannounce_until_working] at hc
    by_cases h : loop_condition maxR count = true
    · simp [h] at hc
    · rw [Bool.not_eq_true] at h
      simp [h] at hc
      subst hc
      rfl
  | cons s rest ih =>
    intro count c hc
    by_cases h : loop_condition maxR count = true
    case neg =>
      rw [reannounce_until_working] at hc
      rw [Bool.not_eq_true] at h
      simp [h] at hc
      subst hc
      rfl
    rcases hts : s.torrent with _ | t
    · rw [reannounce_until_working] at hc
      rw [hts] at hc
      simp [h] at hc
      subst hc
      rfl
    by_cases hstopped : t.isStopped = true
    · rw [reannounce_until_working] at hc
      rw [hts] at hc
      simp [h, hstopped] at hc
      subst hc
      rfl
    rw [Bool.not_eq_true] at hstopped
    by_cases hstop : s.stop = true
    · rw [reannounce_until_working] at hc
      rw [hts] at hc
      simp [h, hstopped, hstop] at hc
      subst hc
      rfl
    rw [Bool.not_eq_true] at hstop
    by_cases hw : hasWorking s.trackers = true
    · rw [reannounce_until_working] at hc
      rw [hts] at hc
      simp [h, hstopped, hstop, hw] at hc
      rcases hc with rfl | rfl <;> rfl
    rw [Bool.not_eq_true] at hw
    by_cases hupd : hasUpdating s.trackers = true
    · rw [loop_unfold_updating maxR freq count s rest t h hts hstop hstopped hw hupd] at hc
      rcases List.mem_append.mp hc with h' | h'
      · fin_cases h' <;> rfl
      · exact ih count c h'
    rw [Bool.not_eq_true] at hupd
    by_cases hu : unregFires s.trackers = true
    · rw [loop_unfold_unreg maxR freq count s rest t h hts hstop hstopped hw hupd hu] at hc
      rcases List.mem_append.mp hc with h' | h'
      · rcases List.mem_append.mp h' with h'' | h''
        · fin_cases h'' <;> rfl
        · exact handle_unregistered_ledger_free t s.trackers c h''
      · exact ih count c h'
    rw [Bool.not_eq_true] at hu
    by_cases htm : tooManyFires s.trackers = true
    · rw [loop_unfold_toomany maxR freq count s rest t h hts hstop hstopped hw hupd hu htm] at hc
      rcases List.mem_append.mp hc with h' | h'
      · rcases List.mem_append.mp h' with h'' | h''
        · rcases List.mem_append.mp h'' with h3 | h3
          · fin_cases h3 <;> rfl
          · exact handle_unregistered_ledger_free t s.trackers c h3
        · exact handle_too_many_ledger_free s.trackers c h''
      · exact ih count c h'
    rw [Bool.not_eq_true] at htm
    have hcs : consumeStep s = true := by
      unfold consumeStep
      rw [hts]
      simp [Option.any, hstopped, hstop, hw, hupd, hu, htm]
    rw [consume_step_unfold maxR freq count s rest h hcs] at hc
    rcases List.mem_append.mp hc with h' | h'
    · fin_cases h' <;> rfl
    · exact ih (count + 1) c h'

/-- The checking-state poll emits only read-only fetches and sleeps. -/
theorem pollPhase_reads_only :
    ∀ (snaps : List PollSnap), ∀ c ∈ (pollPhase snaps).2,
      isMutation c = false ∧ isLedgerOrPause c = false := by
  intro snaps
  induction snaps with
  | nil =>
    intro c hc
    simp [pollPhase] at hc
  | cons s rest ih =>
    intro c hc
    rw [pollPhase] at hc
    rcases hts : s.torrent with _ | t <;> rw [hts] at hc
    · simp at hc
      subst hc
      exact ⟨rfl, rfl⟩
    by_cases hstop : s.stop = true
    · simp [hstop] at hc
      subst hc
      exact ⟨rfl, rfl⟩
    rw [Bool.not_eq_true] at hstop
    by_cases hch : t.isChecking = true
    · simp [hstop, hch] at hc
      rcases hc with rfl | rfl | hc
      · exact ⟨rfl, rfl⟩
      · exact ⟨rfl, rfl⟩
      · exact ih c hc
    · rw [Bool.not_eq_true] at hch
      simp [hstop, hch] at hc
      subst hc
      exact ⟨rfl, rfl⟩

/-- The resume helper emits no ledger marker and no pause request. -/
theorem resume_torrents_ledger_free (paused present : List String) :
    ∀ c ∈ resume_torrents paused present, isLedgerOrPause c = false := by
  intro c hc
  unfold resume_torrents at hc
  by_cases h : paused.isEmpty
  · simp [h] at hc
  · simp [h] at hc
    rcases hc with rfl | rfl <;> rfl

/-- Scanner deciding "every pause request is preceded by a successful save":
walk the trace remembering whether `saveEv` has occurred; a `pauseC` is
legitimate only afterwards. -/
def pauseAfterSaveGo : Bool → List Call → Bool
  | _, [] => true
  | saw, .pauseC _ :: r => saw && pauseAfterSaveGo saw r
  | _, .saveEv :: r => pauseAfterSaveGo true r
  | saw, _ :: r => pauseAfterSaveGo saw r

/-- A trace satisfies "pause only after save" when the scan from the initial
state succeeds. -/
def pause_only_after_save (tr : List Call) : Bool := pauseAfterSaveGo false tr

/-- After a save has been seen, the scanner always succeeds. -/
theorem pauseAfterSaveGo_true : ∀ tr, pauseAfterSaveGo true tr = true := by
  intro tr
  induction tr with
  | nil => rfl
  | cons c r ih => cases c <;> simp [pauseAfterSaveGo, ih]

/-- A ledger-free prefix does not affect the scanner. -/
theorem pauseAfterSaveGo_skip :
    ∀ (l r : List Call), (∀ c ∈ l, isLedgerOrPause c = false) →
      pauseAfterSaveGo false (l ++ r) = pauseAfterSaveGo false r := by
  intro l
  induction l with
  | nil => intro r _; rfl
  | cons c l' ih =>
    intro r hl
    have hc := hl c (List.mem_cons_self c l')
    have hrest : ∀ x ∈ l', isLedgerOrPause x = false :=
      fun x hx => hl x (List.mem_cons_of_mem c hx)
    cases c with
    | pauseC hs => simp [isLedgerOrPause] at hc
    | saveEv => simp [isLedgerOrPause] at hc
    | saveFail => simp [isLedgerOrPause] at hc
    | infoQ => simpa [pauseAfterSaveGo] using ih r hrest
    | trackersQ => simpa [pauseAfterSaveGo] using ih r hrest
    | resumeC hs => simpa [pauseAfterSaveGo] using ih r hrest
    | reannC => simpa [pauseAfterSaveGo] using ih r hrest
    | recheckC => simpa [pauseAfterSaveGo] using ih r hrest
    | stopC => simpa [pauseAfterSaveGo] using ih r hrest
    | startC => simpa [pauseAfterSaveGo] using ih r hrest
    | sleepC d => simpa [pauseAfterSaveGo] using ih r hrest

/-- A ledger-free trace trivially satisfies the pause-after-save scan. -/
theorem pause_only_after_save_of_free (l : List Call)
    (h : ∀ c ∈ l, isLedgerOrPause c = false) : pause_only_after_save l = true := by
  unfold pause_only_after_save
  have hskip := pauseAfterSaveGo_skip l [] h
  rw [List.append_nil] at hskip
  rw [hskip]
  rfl

/-- A trace made of a ledger-free prefix, then a successful save, then
anything, satisfies the pause-after-save scan. -/
theorem pause_only_with_save (pre post : List Call)
    (hpre : ∀ c ∈ pre, isLedgerOrPause c = false) :
    pause_only_after_save (pre ++ Call.saveEv :: post) = true := by
  unfold pause_only_after_save
  rw [pauseAfterSaveGo_skip pre _ hpre]
  show pauseAfterSaveGo true post = true
  exact pauseAfterSaveGo_true post

/-- Behaviour of the post-poll part of `race` with respect to the ledger
save: with a failing save the run raises `IOError` and no pause request is
ever issued; in every case a pause request can only follow a successful
save. -/
theorem raceAfterChecking_props (cfg : AppConfig) (env : RaceEnv) (t : Torrent)
    (S : List String) (preTr : List Call)
    (hpre : ∀ c ∈ preTr, isLedgerOrPause c = false) :
    (env.saveOk = false →
      (∀ hs, Call.pauseC hs ∉ (raceAfterChecking cfg env t S preTr).2) ∧
      (Call.saveFail ∈ (raceAfterChecking cfg env t S preTr).2 →
        (raceAfterChecking cfg env t S preTr).1 = RaceOutcome.ioError)) ∧
    pause_only_after_save (raceAfterChecking cfg env t S preTr).2 = true := by
  unfold raceAfterChecking
  by_cases hstopped : t.isStopped = true
  · simp only [hstopped, if_true]
    exact ⟨fun _ => ⟨fun hs => not_mem_of_ledger_free preTr hpre _ rfl,
      fun h => absurd h (not_mem_of_ledger_free preTr hpre _ rfl)⟩,
      pause_only_after_save_of_free preTr hpre⟩
  rw [Bool.not_eq_true] at hstopped
  by_cases hcomplete : t.isComplete = true
  · simp only [hstopped, hcomplete, Bool.false_eq_true, if_false, if_true]
    exact ⟨fun _ => ⟨fun hs => not_mem_of_ledger_free preTr hpre _ rfl,
      fun h => absurd h (not_mem_of_ledger_free preTr hpre _ rfl)⟩,
      pause_only_after_save_of_free preTr hpre⟩
  rw [Bool.not_eq_true] at hcomplete
  by_cases hso : env.saveOk = true
  · have hso' : (!env.saveOk) = false := by simp [hso]
    simp only [hstopped, hcomplete, hso', Bool.false_eq_true, if_false]
    constructor
    · intro hfalse
      rw [hso] at hfalse
      exact absurd hfalse (by simp)
    · rcases hloop : (reannounce_until_working (normMax cfg.racing.max_reannounce)
          (freqOf cfg.racing.reannounce_frequency) env.reannSnaps 0).1 with
        _ | _ | _ | _ | _ | _ <;>
      · simp only [hloop]
        simp only [List.append_assoc, List.singleton_append, List.cons_append]
        exact pause_only_with_save preTr _ hpre
  · rw [Bool.not_eq_true] at hso
    have hso' : (!env.saveOk) = true := by simp [hso]
    simp only [hstopped, hcomplete, hso', Bool.false_eq_true, if_false, if_true]
    constructor
    · intro hok
      constructor
      · intro hs hmem
        rcases List.mem_append.mp hmem with h | h
        · exact absurd h (not_mem_of_ledger_free preTr hpre (Call.pauseC hs) rfl)
        · simp at h
      · intro hsf
        trivial
    · unfold pause_only_after_save
      rw [pauseAfterSaveGo_skip preTr _ hpre]
      rfl

/-- C4.  In every `race` run: if the ledger save transaction fails, the run
aborts with `IOError` and no pause request is ever sent to the client (so no
torrent is ever paused without being tracked); and in every run whatsoever,
any pause request in the trace is preceded by the successful ledger save. -/
theorem race_save_failure_aborts (cfg : AppConfig) (hash : String) (env : RaceEnv) :
    (env.saveOk = false →
      (∀ hs, Call.pauseC hs ∉ (race cfg hash env).2) ∧
      (Call.saveFail ∈ (race cfg hash env).2 →
        (race cfg hash env).1 = RaceOutcome.ioError)) ∧
    pause_only_after_save (race cfg hash env).2 = true := by
  unfold race
  have hpre : ∀ c ∈ Call.infoQ :: (pollPhase env.pollSnaps).2,
      isLedgerOrPause c = false := by
    intro c hc
    rcases List.mem_cons.mp hc with rfl | h
    · rfl
    · exact (pollPhase_reads_only env.pollSnaps c h).2
  rcases hfind : env.torrents.find? (fun t => t.hash == hash) with _ | racing
  · simp only [hfind]
    exact ⟨fun _ => ⟨fun hs => by simp, fun h => by simp at h⟩, rfl⟩
  simp only [hfind]
  by_cases hrej : categoryReject cfg.racing.race_categories racing = true
  · simp only [hrej, if_true]
    exact ⟨fun _ => ⟨fun hs => by simp, fun h => by simp at h⟩, rfl⟩
  rw [Bool.not_eq_true] at hrej
  simp only [hrej, Bool.false_eq_true, if_false]
  rcases hpr : (pollPhase env.pollSnaps).1 with t | _ | _ | _
  · simp only [hpr, List.singleton_append]
    exact raceAfterChecking_props cfg env t _ _ hpre
  all_goals
    simp only [hpr, List.singleton_append]
    exact ⟨fun _ => ⟨fun hs => not_mem_of_ledger_free _ hpre (Call.pauseC hs) rfl,
      fun h => absurd h (not_mem_of_ledger_free _ hpre Call.saveFail rfl)⟩,
      pause_only_after_save_of_free _ hpre⟩

/-- Concrete configuration for the C4 witness. -/
def c4cfg : AppConfig := ⟨⟨[], none, none, some (some 0)⟩, []⟩

/-- Concrete environment for the C4 witness: the save transaction fails. -/
def c4env : RaceEnv :=
  ⟨[⟨"h", "n", "", 1, 0, false, false, false, false, 0, 0⟩], [],
   [⟨some ⟨"h", "n", "", 1, 0, false, false, false, false, 0, 0⟩, false⟩], false, [], []⟩

/-- Witness for C4: with a failing save the concrete run raises `IOError`
with no pause request in its trace. -/
theorem race_save_failure_aborts_witness :
    ((∀ hs, Call.pauseC hs ∉ (race c4cfg "h" c4env).2) ∧
      (Call.saveFail ∈ (race c4cfg "h" c4env).2 →
        (race c4cfg "h" c4env).1 = RaceOutcome.ioError)) ∧
    pause_only_after_save (race c4cfg "h" c4env).2 = true :=
  ⟨(race_save_failure_aborts c4cfg "h" c4env).1 rfl,
   (race_save_failure_aborts c4cfg "h" c4env).2⟩

/-! ## C3: cancellation during a wait -/

/-- A poll iteration that keeps waiting: torrent present and still checking,
no cancellation pending. -/
def pollContinues (p : PollSnap) : Bool :=
  (p.torrent.any (fun t => t.isChecking)) && !p.stop

/-- A reannounce iteration that neither terminates nor raises: torrent
present and not stopped, no cancellation pending, no working tracker. -/
def stepContinues (p : ReannSnap) : Bool :=
  (p.torrent.any (fun t => !t.isStopped)) && !p.stop && !hasWorking p.trackers

/-- The poll loop run on continuing iterations followed by one with the stop
event set raises the interruption. -/
theorem pollPhase_interrupt (pre : List PollSnap) (s : PollSnap)
    (rest : List PollSnap) (t : Torrent)
    (hpre : ∀ p ∈ pre, pollContinues p = true)
    (hstop : s.stop = true) (ht : s.torrent = some t) :
    ∃ tr, pollPhase (pre ++ s :: rest) = (PollRes.interruptedP, tr) := by
  induction pre with
  | nil =>
    refine ⟨[Call.infoQ], ?_⟩
    rw [List.nil_append, pollPhase]
    simp [ht, hstop]
  | cons p pre' ih =>
    have hp := hpre p (List.mem_cons_self p pre')
    unfold pollContinues at hp
    simp only [Bool.and_eq_true, Bool.not_eq_true'] at hp
    obtain ⟨hsome, hpstop⟩ := hp
    rcases htp : p.torrent with _ | tp
    · rw [htp] at hsome
      simp [Option.any] at hsome
    rw [htp] at hsome
    have hck : tp.isChecking = true := by simpa [Option.any] using hsome
    obtain ⟨tr, htr⟩ := ih (fun q hq => hpre q (List.mem_cons_of_mem p hq))
    refine ⟨[Call.infoQ, Call.sleepC (1 / 10)] ++ tr, ?_⟩
    rw [List.cons_append, pollPhase]
    simp [htp, hpstop, hck, htr]

/-- The poll loop run on continuing iterations followed by one whose torrent
has finished checking delivers that torrent. -/
theorem pollPhase_found (pre : List PollSnap) (s : PollSnap)
    (rest : List PollSnap) (t : Torrent)
    (hpre : ∀ p ∈ pre, pollContinues p = true)
    (hstop : s.stop = false) (ht : s.torrent = some t)
    (hck : t.isChecking = false) :
    ∃ tr, pollPhase (pre ++ s :: rest) = (PollRes.found t, tr) := by
  induction pre with
  | nil =>
    refine ⟨[Call.infoQ], ?_⟩
    rw [List.nil_append, pollPhase]
    simp [ht, hstop, hck]
  | cons p pre' ih =>
    have hp := hpre p (List.mem_cons_self p pre')
    unfold pollContinues at hp
    simp only [Bool.and_eq_true, Bool.not_eq_true'] at hp
    obtain ⟨hsome, hpstop⟩ := hp
    rcases htp : p.torrent with _ | tp
    · rw [htp] at hsome
      simp [Option.any] at hsome
    rw [htp] at hsome
    have hckp : tp.isChecking = true := by simpa [Option.any] using hsome
    obtain ⟨tr, htr⟩ := ih (fun q hq => hpre q (List.mem_cons_of_mem p hq))
    refine ⟨[Call.infoQ, Call.sleepC (1 / 10)] ++ tr, ?_⟩
    rw [List.cons_append, pollPhase]
    simp [htp, hpstop, hckp, htr]

/-- The reannounce loop with no attempt limit, run on continuing iterations
followed by one with the stop event set, raises the interruption right after
that iteration's read-only torrent fetch: nothing at all follows the fetch. -/
theorem loop_interrupt (freq : Rat) :
    ∀ (pre : List ReannSnap) (s : ReannSnap) (rest : List ReannSnap)
      (u : Torrent) (count : Nat),
      (∀ p ∈ pre, stepContinues p = true) → s.stop = true →
      s.torrent = some u → u.isStopped = false →
      ∃ tr, reannounce_until_working none freq (pre ++ s :: rest) count =
        (ReannResult.interruptedR, tr ++ [Call.infoQ]) := by
  intro pre
  induction pre with
  | nil =>
    intro s rest u count _ hstop ht hstopped
    refine ⟨[], ?_⟩
    rw [List.nil_append, reannounce_until_working]
    simp [loop_condition, ht, hstopped, hstop]
  | cons p pre' ih =>
    intro s rest u count hpre hstop ht hstopped
    have hp := hpre p (List.mem_cons_self p pre')
    unfold stepContinues at hp
    simp only [Bool.and_eq_true, Bool.not_eq_true'] at hp
    obtain ⟨⟨hsome, hpstop⟩, hw⟩ := hp
    rcases htp : p.torrent with _ | tp
    · rw [htp] at hsome
      simp [Option.any] at hsome
    rw [htp] at hsome
    have hpstopped : tp.isStopped = false := by simpa [Option.any] using hsome
    obtain ⟨tr, htr⟩ :=
      ih s rest u count (fun q hq => hpre q (List.mem_cons_of_mem p hq)) hstop ht hstopped
    by_cases hupd : hasUpdating p.trackers = true
    · refine ⟨[Call.infoQ, Call.trackersQ, Call.sleepC freq] ++ tr, ?_⟩
      rw [List.cons_append,
        loop_unfold_updating none freq count p _ tp rfl htp hpstop hpstopped hw hupd, htr]
      simp
    rw [Bool.not_eq_true] at hupd
    by_cases hu : unregFires p.trackers = true
    · refine ⟨[Call.infoQ, Call.trackersQ] ++ (handle_unregistered_torrent tp p.trackers).2 ++ tr, ?_⟩
      rw [List.cons_append,
        loop_unfold_unreg none freq count p _ tp rfl htp hpstop hpstopped hw hupd hu, htr]
      simp
    rw [Bool.not_eq_true] at hu
    by_cases htm : tooManyFires p.trackers = true
    · refine ⟨[Call.infoQ, Call.trackersQ] ++ (handle_unregistered_torrent tp p.trackers).2 ++
        (handle_too_many_requests p.trackers).2 ++ tr, ?_⟩
      rw [List.cons_append,
        loop_unfold_toomany none freq count p _ tp rfl htp hpstop hpstopped hw hupd hu htm, htr]
      simp
    rw [Bool.not_eq_true] at htm
    have hcs : consumeStep p = true := by
      unfold consumeStep
      rw [htp]
      simp [Option.any, hpstopped, hpstop, hw, hupd, hu, htm]
    obtain ⟨tr2, htr2⟩ :=
      ih s rest u (count + 1) (fun q hq => hpre q (List.mem_cons_of_mem p hq)) hstop ht hstopped
    refine ⟨[Call.infoQ, Call.trackersQ, Call.trackersQ, Call.trackersQ, Call.trackersQ,
      Call.reannC, Call.trackersQ, Call.sleepC freq] ++ tr2, ?_⟩
    rw [List.cons_append, consume_step_unfold none freq count p _ rfl hcs, htr2]
    simp

/-- C3 as amended.  Cancellation of `race` takes effect only when a later
interruption check observes it; when one does, the interruption is raised
before any further remote mutation and the cleanup resumes exactly what this
run paused.  Part one: the stop event observed at a checking-state poll
check makes the run propagate the interruption with no remote mutation at
all in its trace (nothing was paused yet, so nothing is resumed).  Part two:
with no attempt limit, the stop event observed at a reannounce-loop check
that still finds the torrent present and not stopped makes the run propagate
the interruption; after the iteration's read-only fetch which observes it,
the only further activity is the cleanup, which resumes exactly the run's
own pause set (all of it still present at cleanup).  When no check ever
observes the cancellation the run can instead finish on its normal `False`
path — see the counterexample below. -/
theorem race_cancellation (cfg : AppConfig) (hash : String) (env : RaceEnv) :
    (∀ (racing : Torrent) (pre : List PollSnap) (s : PollSnap)
        (rest : List PollSnap) (t : Torrent),
      env.torrents.find? (fun tt => tt.hash == hash) = some racing →
      categoryReject cfg.racing.race_categories racing = false →
      env.pollSnaps = pre ++ s :: rest →
      (∀ p ∈ pre, pollContinues p = true) →
      s.stop = true → s.torrent = some t →
      (race cfg hash env).1 = RaceOutcome.interruptedRun ∧
        mutCalls (race cfg hash env).2 = []) ∧
    (∀ (racing : Torrent) (pre : List PollSnap) (s : PollSnap)
        (rest : List PollSnap) (t : Torrent)
        (rpre : List ReannSnap) (rs : ReannSnap) (rrest : List ReannSnap)
        (u : Torrent),
      env.torrents.find? (fun tt => tt.hash == hash) = some racing →
      categoryReject cfg.racing.race_categories racing = false →
      env.pollSnaps = pre ++ s :: rest →
      (∀ p ∈ pre, pollContinues p = true) →
      s.stop = false → s.torrent = some t → t.isChecking = false →
      t.isStopped = false → t.isComplete = false →
      env.saveOk = true →
      normMax cfg.racing.max_reannounce = none →
      env.reannSnaps = rpre ++ rs :: rrest →
      (∀ p ∈ rpre, stepContinues p = true) →
      rs.stop = true → rs.torrent = some u → u.isStopped = false →
      (∀ h ∈ racePauseSet cfg hash env, h ∈ env.cleanupPresent) →
      (race cfg hash env).1 = RaceOutcome.interruptedRun ∧
        ∃ p', (race cfg hash env).2 =
          p' ++ [Call.infoQ] ++
            (if (racePauseSet cfg hash env).isEmpty then []
             else [Call.infoQ, Call.resumeC (racePauseSet cfg hash env)])) := by
  constructor
  · intro racing pre s rest t hfind hrej hpoll hcont hstop ht
    unfold race
    simp only [hfind]
    simp only [hrej, Bool.false_eq_true, if_false]
    rw [hpoll]
    obtain ⟨ptr, hptr⟩ := pollPhase_interrupt pre s rest t hcont hstop ht
    simp only [hptr]
    constructor
    · trivial
    · apply List.filter_eq_nil_iff.mpr
      intro c hc
      rcases List.mem_append.mp hc with h | h
      · fin_cases h
        simp [isMutation]
      · have hro := pollPhase_reads_only (pre ++ s :: rest) c (by rw [hptr]; exact h)
        simp [hro.1]
  · intro racing pre s rest t rpre rs rrest u hfind hrej hpoll hcont hstop ht hck
      hstopped hcomplete hso hmax hreann hrcont hrstop hru hrustopped hsub
    unfold race
    simp only [hfind]
    simp only [hrej, Bool.false_eq_true, if_false]
    rw [hpoll]
    obtain ⟨ptr, hptr⟩ := pollPhase_found pre s rest t hcont hstop ht hck
    simp only [hptr]
    unfold raceAfterChecking
    have hso' : (!env.saveOk) = false := by simp [hso]
    simp only [hstopped, hcomplete, hso', Bool.false_eq_true, if_false]
    rw [hmax, hreann]
    obtain ⟨ltr, hltr⟩ := loop_interrupt (freqOf cfg.racing.reannounce_frequency)
      rpre rs rrest u 0 hrcont hrstop hru hrustopped
    simp only [hltr]
    have hfilter : (racePauseSet cfg hash env).filter
        (fun h => env.cleanupPresent.contains h) = racePauseSet cfg hash env :=
      List.filter_eq_self.mpr (fun a ha => List.elem_eq_true_of_mem (hsub a ha))
    have hres : resume_torrents (racePauseSet cfg hash env) env.cleanupPresent =
        (if (racePauseSet cfg hash env).isEmpty then []
         else [Call.infoQ, Call.resumeC (racePauseSet cfg hash env)]) := by
      unfold resume_torrents
      rw [hfilter]
    constructor
    · trivial
    · refine ⟨(([Call.infoQ] ++ ptr) ++ [Call.saveEv] ++
        (if (racePauseSet cfg hash env).isEmpty then []
         else [Call.pauseC (racePauseSet cfg hash env)])) ++ ltr, ?_⟩
      rw [hres]
      simp [List.append_assoc]

/-- Concrete configuration for the C3 witness: no race categories, no
attempt limit, pausing disabled. -/
def c3cfg : AppConfig := ⟨⟨[], none, none, none⟩, []⟩

/-- Torrent used by the C3 witness. -/
def c3t : Torrent := ⟨"h", "n", "", 1, 0, false, false, false, false, 0, 0⟩

/-- Environment for the C3 witness, part one: the stop event is already set
at the first poll check. -/
def c3envPoll : RaceEnv := ⟨[c3t], [], [⟨some c3t, true⟩], true, [], []⟩

/-- Environment for the C3 witness, part two: the poll succeeds at once and
the stop event is set at the first reannounce check. -/
def c3envLoop : RaceEnv := ⟨[c3t], [], [⟨some c3t, false⟩], true, [⟨some c3t, [], true⟩], []⟩

/-- Witness for the amended C3: both cancellation scenarios at concrete
inputs. -/
theorem race_cancellation_witness :
    ((race c3cfg "h" c3envPoll).1 = RaceOutcome.interruptedRun ∧
      mutCalls (race c3cfg "h" c3envPoll).2 = []) ∧
    ((race c3cfg "h" c3envLoop).1 = RaceOutcome.interruptedRun ∧
      ∃ p', (race c3cfg "h" c3envLoop).2 =
        p' ++ [Call.infoQ] ++
          (if (racePauseSet c3cfg "h" c3envLoop).isEmpty then []
           else [Call.infoQ, Call.resumeC (racePauseSet c3cfg "h" c3envLoop)])) :=
  ⟨(race_cancellation c3cfg "h" c3envPoll).1 c3t [] ⟨some c3t, true⟩ [] c3t
      (by decide) (by decide) rfl (by simp) rfl rfl,
   (race_cancellation c3cfg "h" c3envLoop).2 c3t [] ⟨some c3t, false⟩ [] c3t
      [] ⟨some c3t, [], true⟩ [] c3t
      (by decide) (by decide) rfl (by simp) rfl rfl rfl rfl rfl rfl rfl rfl
      (by simp) rfl rfl rfl (by decide)⟩

/-- Configuration for the C3 counterexample: no race categories, a limit of
one reannounce attempt, pausing enabled with ratio 0. -/
def c3cexCfg : AppConfig := ⟨⟨[], some 1, some 5, some (some 0)⟩, []⟩

/-- Racing torrent of the C3 counterexample. -/
def c3cexT : Torrent := ⟨"r1", "r1", "", 1, 0, false, false, false, false, 0, 0⟩

/-- The torrent the C3 counterexample run pauses. -/
def c3cexX : Torrent := ⟨"x", "x", "", 1, 0, false, false, false, false, 0, 0⟩

/-- Environment of the C3 counterexample: the single permitted reannounce
attempt is consumed in the first loop iteration (stop flag still false at
its check), and the cancellation fires during that iteration's closing
sleep — so the stop flag any later check would observe is true.  The loop
guard `reannounce_count < max_reannounce` fails before the next check runs. -/
def c3cexEnv : RaceEnv :=
  ⟨[c3cexT, c3cexX], [], [⟨some c3cexT, false⟩], true,
   [⟨some c3cexT, [⟨TrackerSt.notContacted, "", "u"⟩], false⟩,
    ⟨some c3cexT, [⟨TrackerSt.notContacted, "", "u"⟩], true⟩], ["x"]⟩

/-- Counterexample to C3 as stated.  In this `race` execution the
cancellation fires during a wait — the sleep ending the loop's only
(and last) consuming iteration: every snapshot after that iteration carries
`stop = true`, so any further interruption check would observe it.  But the
attempt limit is exhausted, the loop guard fails before another check runs,
and `_reannounce_until_working` gives up: the run issues the remote resume
mutation and returns exit code 1.  The interruption signal is never raised,
no interruption is propagated, and yet a remote mutation follows the
cancelled wait — the claim's "the interruption signal is raised before any
further remote mutation is issued" and "before propagating the
interruption" are both false for this execution. -/
theorem race_cancellation_lost_cex :
    (c3cexEnv.reannSnaps.drop 1).all (fun s => s.stop) = true ∧
    c3cexEnv.reannSnaps.length = 2 ∧
    racePauseSet c3cexCfg "r1" c3cexEnv = ["x"] ∧
    (race c3cexCfg "r1" c3cexEnv).1 = RaceOutcome.exit1 ∧
    (race c3cexCfg "r1" c3cexEnv).1 ≠ RaceOutcome.interruptedRun ∧
    (race c3cexCfg "r1" c3cexEnv).2 =
      [Call.infoQ, Call.infoQ, Call.saveEv, Call.pauseC ["x"], Call.infoQ,
       Call.trackersQ, Call.trackersQ, Call.trackersQ, Call.trackersQ, Call.reannC,
       Call.trackersQ, Call.sleepC 5, Call.infoQ, Call.infoQ, Call.resumeC ["x"]] := by
  refine ⟨by decide, by decide, by decide, ?_, ?_, ?_⟩ <;> decide

/-! ## C2: shared items and the resume paths -/

/-- The hashes `post_race` and `unpause` pass to `torrents_resume`: the
exclusively paused items of the event, intersected with the hashes the
client still knows (`_resume_torrents`). -/
def post_race_resume (db : DB) (e : String) (present : List String) : List String :=
  (load_torrents_to_unpause db e).filter (fun h => present.contains h)

/-- Configuration for the C2 counterexample: race category `r`, one
reannounce attempt, pausing enabled with ratio 0. -/
def c2cfg : AppConfig := ⟨⟨["r"], some 1, some 5, some (some 0)⟩, []⟩

/-- The racing torrent of run `B` in the C2 counterexample. -/
def c2torrentB : Torrent := ⟨"B", "B", "r", 1, 0, false, false, false, false, 0, 0⟩

/-- The shared item `x` of the C2 counterexample: currently paused, and
recorded in the ledger (so not "manually paused"). -/
def c2torrentX : Torrent := ⟨"x", "x", "", 1, 0, false, true, false, false, 0, 0⟩

/-- Environment of run `B` in the C2 counterexample.  `x` is recorded in the
ledger (it was paused by the earlier event `A`); the single reannounce
attempt fails, so the run falls into its cleanup path. -/
def c2env : RaceEnv :=
  ⟨[c2torrentB, c2torrentX], ["x"], [⟨some c2torrentB, false⟩], true,
   [⟨some c2torrentB, [⟨TrackerSt.notContacted, "", "u"⟩], false⟩], ["x"]⟩

/-- Ledger state after event `A` paused `x`. -/
def c2dbA : DB := save_torrent_hashes_to_pause "A" ["x"] DB.empty

/-- Ledger state after run `B` additionally saved its own pause set. -/
def c2dbAB : DB := save_torrent_hashes_to_pause "B" (racePauseSet c2cfg "B" c2env) c2dbA

/-- Counterexample to C2 as stated.  Reachable two-run execution: event `A`
saved `{x}`; then run `B` computes the pause set `{x}` (x is paused but
ledger-tracked, hence eligible), saves it, fails its reannounce attempt, and
its cleanup passes `x` to the remote resume operation — while the ledger
still records `x` under both `A` and `B` and neither has released it. -/
theorem race_cleanup_shared_item_cex :
    racePauseSet c2cfg "B" c2env = ["x"] ∧
    c2dbAB = save_torrent_hashes_to_pause "B" (racePauseSet c2cfg "B" c2env) c2dbA ∧
    refCount c2dbAB "x" = 2 ∧
    refCountUnder c2dbAB "A" "x" = 1 ∧
    refCountUnder c2dbAB "B" "x" = 1 ∧
    (race c2cfg "B" c2env).1 = RaceOutcome.exit1 ∧
    Call.resumeC ["x"] ∈ (race c2cfg "B" c2env).2 := by
  refine ⟨by decide, rfl, by decide, by decide, by decide, ?_, ?_⟩ <;> decide

/-- C2 as amended: the safety rule holds for the `post_race` and `unpause`
resume paths — an item currently recorded under two or more pause events is
never among the hashes they pass to the remote resume operation — while the
`race` cleanup path instead resumes exactly the set this run paused, which
can include an item also recorded under another event (see the
counterexample). -/
theorem post_race_resume_exclusive (db : DB) (e x : String) (present : List String)
    (h : x ∈ post_race_resume db e present) :
    refCount db x = refCountUnder db e x ∧
    ∀ e', e' ≠ e → (e', x) ∉ db.refs := by
  have hmem : x ∈ load_torrents_to_unpause db e := (List.mem_filter.mp h).1
  have hcount := ((mem_load_torrents_to_unpause db e x).mp hmem).2
  exact ⟨hcount, fun e' hne hcontra =>
    hne (refs_all_under_of_count_eq db e x hcount (e', x) hcontra rfl)⟩

/-- Witness for the amended C2: with `x` recorded under both `A` and `B`,
`post_race` of `A` resumes only `y` and never `x`. -/
theorem post_race_resume_exclusive_witness :
    ((refCount ⟨["A", "B"], [("A", "x"), ("A", "y"), ("B", "x")]⟩ "y" =
        refCountUnder ⟨["A", "B"], [("A", "x"), ("A", "y"), ("B", "x")]⟩ "A" "y") ∧
      (∀ e', e' ≠ "A" →
        (e', "y") ∉ (⟨["A", "B"], [("A", "x"), ("A", "y"), ("B", "x")]⟩ : DB).refs)) ∧
    "x" ∉ post_race_resume ⟨["A", "B"], [("A", "x"), ("A", "y"), ("B", "x")]⟩ "A" ["x", "y"] :=
  ⟨post_race_resume_exclusive ⟨["A", "B"], [("A", "x"), ("A", "y"), ("B", "x")]⟩ "A" "y"
      ["x", "y"] (by decide), by decide⟩

/-! ## TaskManager (`task_manager.py`) -/

/-- How the body of a task terminates: normal return, `TaskInterrupted`, or
any other exception. -/
inductive TaskOutcome
  | normal
  | interrupted
  | errored
  deriving DecidableEq, Repr

/-- Registry operations of `TaskManager`: registering a task under a fresh
id, and `_remove_task`. -/
inductive RegOp
  | add (id name : String)
  | remove (id : String)
  deriving DecidableEq, Repr

/-- Effect of one registry operation on `self._tasks` (a dict keyed by task
id): adding appends a binding, `_remove_task` pops the key. -/
def applyOp : List (String × String) → RegOp → List (String × String)
  | reg, .add id name => reg ++ [(id, name)]
  | reg, .remove id => reg.filter (fun kv => kv.1 != id)

/-- Effect of a sequence of registry operations. -/
def applyOps (reg : List (String × String)) (ops : List RegOp) : List (String × String) :=
  ops.foldl applyOp reg

/-- Embedding of the registry effects of the `run()` wrapper in
`start_task`: the body touches no registry state; each `except` branch only
logs; the `finally` block removes the task's entry — the single removal
point shared by all three termination paths. -/
def run_wrapper_ops (o : TaskOutcome) (id : String) : List RegOp :=
  let bodyOps : List RegOp := []
  let handlerOps : List RegOp :=
    match o with
    | .normal => []
    | .interrupted => []
    | .errored => []
  bodyOps ++ handlerOps ++ [.remove id]

/-- Embedding of the registry effects of `start_task` followed by the
task's full run: register under the fresh id, then the wrapper's effects. -/
def start_task_ops (o : TaskOutcome) (id name : String) : List RegOp :=
  [.add id name] ++ run_wrapper_ops o id

/-- Is an operation the removal of task `id`? -/
def isRemove (id : String) : RegOp → Bool
  | .remove i => i == id
  | _ => false

/-- Number of registry entries for task `id`. -/
def countTask (reg : List (String × String)) (id : String) : Nat :=
  reg.countP (fun kv => kv.1 == id)

/-! ## C9: exactly one live registry entry, removed exactly once -/

/-- C9.  For every task started under a fresh id and every way its body can
terminate — normal return, cooperative interruption, or unhandled error —
the wrapper's registry effects contain exactly one removal of the task, the
effect sequence is the same single path for every outcome (never two
removal paths at once), the registry holds exactly one entry for the task
while it is live, and none once the wrapper has finished. -/
theorem task_registry_lifecycle (o : TaskOutcome) (id name : String)
    (reg : List (String × String)) (hfresh : countTask reg id = 0) :
    (run_wrapper_ops o id).countP (isRemove id) = 1 ∧
    run_wrapper_ops o id = [RegOp.remove id] ∧
    countTask (applyOps reg [RegOp.add id name]) id = 1 ∧
    countTask (applyOps reg (start_task_ops o id name)) id = 0 := by
  have hwrap : run_wrapper_ops o id = [RegOp.remove id] := by
    cases o <;> rfl
  refine ⟨?_, hwrap, ?_, ?_⟩
  · rw [hwrap]
    simp [isRemove]
  · unfold countTask at hfresh
    unfold applyOps countTask
    simp only [List.foldl_cons, List.foldl_nil, applyOp]
    rw [List.countP_append]
    simp [hfresh]
  · unfold start_task_ops
    rw [hwrap]
    unfold applyOps countTask
    simp only [List.singleton_append, List.foldl_cons, List.foldl_nil, applyOp]
    apply List.countP_eq_zero.mpr
    intro kv hkv
    have := (List.mem_filter.mp hkv).2
    simpa using this

/-- Witness for C9 at a concrete input: an errored task in a registry that
already holds one other task. -/
theorem task_registry_lifecycle_witness :
    (run_wrapper_ops TaskOutcome.errored "id1").countP (isRemove "id1") = 1 ∧
    run_wrapper_ops TaskOutcome.errored "id1" = [RegOp.remove "id1"] ∧
    countTask (applyOps [("id0", "other")] [RegOp.add "id1" "race"]) "id1" = 1 ∧
    countTask (applyOps [("id0", "other")]
      (start_task_ops TaskOutcome.errored "id1" "race")) "id1" = 0 :=
  task_registry_lifecycle TaskOutcome.errored "id1" "race" [("id0", "other")] (by decide)

/-! ## `pause` operation (`pause` in `handlers.py`, `parse_timedelta` in
`utils.py`) -/

/-- Value of a digit run, most significant first. -/
def digitsVal (ds : List Char) : Nat :=
  ds.foldl (fun acc c => 10 * acc + (c.toNat - 48)) 0

/-- One optional group `(\d+u)?` of `DURATION_RE`: consume a maximal digit
run followed by the unit letter, or consume nothing (the regex backtracks a
group that cannot complete, since the unit letter is not a digit the only
viable match of `\d+` is the maximal run). -/
def parseUnitPart (u : Char) (cs : List Char) : Nat × List Char :=
  let ds := cs.takeWhile Char.isDigit
  let rest := cs.dropWhile Char.isDigit
  if ds.isEmpty then (0, cs)
  else
    match rest with
    | c :: rest' => if c == u then (digitsVal ds, rest') else (0, cs)
    | [] => (0, cs)

/-- Embedding of `parse_timedelta(timedelta_str)`: match the anchored
duration regex `(\d+w)?(\d+d)?(\d+h)?(\d+m)?(\d+s)?`; on no match return the
zero duration, else the matched `timedelta`, here in whole seconds. -/
def parse_timedelta (s : String) : Int :=
  let cs := s.toList
  let pw := parseUnitPart 'w' cs
  let pd := parseUnitPart 'd' pw.2
  let ph := parseUnitPart 'h' pd.2
  let pm := parseUnitPart 'm' ph.2
  let ps := parseUnitPart 's' pm.2
  if ps.2.isEmpty then
    ((pw.1 * 604800 + pd.1 * 86400 + ph.1 * 3600 + pm.1 * 60 + ps.1 : Nat) : Int)
  else 0

/-- Pausing section of the configuration as probed by `pause`:
optional "time_since_active" and "time_active" duration strings. -/
structure PausingCfg where
  time_since_active : Option String
  time_active : Option String
  deriving DecidableEq, Repr

/-- Top-level configuration as consumed by `pause`: optional "pausing"
section plus `ignore_categories` (absent key modelled as `[]`). -/
structure PauseConfig where
  pausing : Option PausingCfg
  ignore_categories : List String
  deriving DecidableEq, Repr

/-- The two thresholds computed at the top of `pause`: both start as the
zero `timedelta` and are overwritten only by the keys that are present. -/
def pauseThresholds (cfg : PauseConfig) : Int × Int :=
  match cfg.pausing with
  | none => (0, 0)
  | some pc =>
    ((match pc.time_since_active with
      | none => 0
      | some str => parse_timedelta str),
     (match pc.time_active with
      | none => 0
      | some str => parse_timedelta str))

/-- One torrent's treatment in the selection loop of `pause`: skip manually
paused, downloading, or ignored torrents; pause when idle at least the
since-active threshold, else when active at least the active threshold. -/
def pause_step (cfg : PauseConfig) (now : Int) (dbPaused : List String)
    (acc : List String) (t : Torrent) : List String :=
  if is_torrent_manually_paused dbPaused t then acc
  else if t.isDownloading then acc
  else if cfg.ignore_categories.contains t.category then acc
  else if (pauseThresholds cfg).1 ≤ now - t.lastActivity then insertHash acc t.hash
  else if (pauseThresholds cfg).2 ≤ (t.timeActive : Int) then insertHash acc t.hash
  else acc

/-- The pause set computed by `pause(config, event_id)` over the client's
torrent list. -/
def pause_hashes_to_pause (cfg : PauseConfig) (now : Int) (dbPaused : List String)
    (ts : List Torrent) : List String :=
  ts.foldl (pause_step cfg now dbPaused) []

/-- An inserted hash is a member. -/
theorem mem_insertHash (acc : List String) (h : String) : h ∈ insertHash acc h := by
  unfold insertHash
  by_cases hc : acc.contains h = true
  · rw [if_pos hc]
    exact List.mem_of_elem_eq_true hc
  · rw [if_neg hc]
    exact List.mem_append_right _ (List.mem_singleton.mpr rfl)

/-- Insertion preserves membership. -/
theorem mem_insertHash_of_mem (acc : List String) (h x : String) (hx : x ∈ acc) :
    x ∈ insertHash acc h := by
  unfold insertHash
  split_ifs
  · exact hx
  · exact List.mem_append_left _ hx

/-- A `pause` selection step preserves membership of the accumulator. -/
theorem mem_pause_step_of_mem (cfg : PauseConfig) (now : Int) (dbPaused : List String)
    (acc : List String) (t : Torrent) (x : String) (hx : x ∈ acc) :
    x ∈ pause_step cfg now dbPaused acc t := by
  unfold pause_step
  split_ifs <;> first
    | exact hx
    | exact mem_insertHash_of_mem acc t.hash x hx

/-- The `pause` selection fold preserves membership of the accumulator. -/
theorem mem_pause_foldl_of_mem (cfg : PauseConfig) (now : Int) (dbPaused : List String) :
    ∀ (ts : List Torrent) (acc : List String) (x : String), x ∈ acc →
      x ∈ ts.foldl (pause_step cfg now dbPaused) acc := by
  intro ts
  induction ts with
  | nil => intro acc x hx; exact hx
  | cons t ts' ih =>
    intro acc x hx
    exact ih _ x (mem_pause_step_of_mem cfg now dbPaused acc t x hx)

/-- C10.  When the configuration has no "pausing" section, or has one
without its time thresholds, `pause` uses the zero duration for both the
idle-time and the active-time thresholds, and consequently every torrent of
the listing that is not manually paused, not downloading and not in an
ignored category is added to the pause set: when the clock makes the idle
time non-negative the first threshold admits it, and otherwise the
non-negative cumulative active time always meets the zero active-time
threshold. -/
theorem pause_zero_thresholds_pause_all (cfg : PauseConfig) (now : Int)
    (dbPaused : List String) (ts : List Torrent) (t : Torrent)
    (hcfg : cfg.pausing = none ∨ cfg.pausing = some ⟨none, none⟩)
    (hmem : t ∈ ts)
    (hmp : is_torrent_manually_paused dbPaused t = false)
    (hdl : t.isDownloading = false)
    (hig : cfg.ignore_categories.contains t.category = false) :
    pauseThresholds cfg = (0, 0) ∧
    t.hash ∈ pause_hashes_to_pause cfg now dbPaused ts := by
  have hth : pauseThresholds cfg = (0, 0) := by
    rcases hcfg with h | h <;> simp [pauseThresholds, h]
  refine ⟨hth, ?_⟩
  have hstep : ∀ acc, t.hash ∈ pause_step cfg now dbPaused acc t := by
    intro acc
    unfold pause_step
    rw [hmp, hdl, hig, hth]
    simp only [Bool.false_eq_true, if_false]
    by_cases h1 : (0 : Int) ≤ now - t.lastActivity
    · rw [if_pos h1]
      exact mem_insertHash acc t.hash
    · rw [if_neg h1, if_pos (Int.natCast_nonneg t.timeActive)]
      exact mem_insertHash acc t.hash
  have hmain : ∀ (ts2 : List Torrent) (acc : List String), t ∈ ts2 →
      t.hash ∈ ts2.foldl (pause_step cfg now dbPaused) acc := by
    intro ts2
    induction ts2 with
    | nil =>
      intro acc h
      simp at h
    | cons a ts' ih =>
      intro acc h
      rcases List.mem_cons.mp h with rfl | h'
      · exact mem_pause_foldl_of_mem cfg now dbPaused ts' _ t.hash (hstep acc)
      · exact ih _ h'
  exact hmain ts [] hmem

/-- Witness for C10: a configuration with an empty "pausing" section and an
idle active torrent. -/
theorem pause_zero_thresholds_pause_all_witness :
    pauseThresholds ⟨some ⟨none, none⟩, ["keep"]⟩ = (0, 0) ∧
    "h" ∈ pause_hashes_to_pause ⟨some ⟨none, none⟩, ["keep"]⟩ 100 []
      [⟨"h", "n", "", 1, 1, false, false, true, false, 50, 30⟩] :=
  pause_zero_thresholds_pause_all ⟨some ⟨none, none⟩, ["keep"]⟩ 100 []
    [⟨"h", "n", "", 1, 1, false, false, true, false, 50, 30⟩]
    ⟨"h", "n", "", 1, 1, false, false, true, false, 50, 30⟩
    (Or.inr rfl) (by decide) (by decide) (by decide) (by decide)

end QbitQuick
